import Mathlib

/-!
Verification development for the `spectralbridges` package
(`src/spectralbridges/__init__.py`).

The Python source is shallowly embedded: numeric data is modelled over an
arbitrary linear ordered field (instantiated at `ℚ` for the raw data and at
`ℝ` for the spectral quantities), stateful attribute mutation is modelled by
explicit state passing, fallible operations return `Option`/`Except`, and the
external deterministic collaborators (the numpy `Generator`, faiss k-means
training, `numpy.linalg.eigh`) are supplied as explicit function arguments.
-/

section VectorOps

variable {K : Type} [LinearOrderedField K]

/-- Elementwise difference of two vectors (numpy broadcasting `a - b`). -/
def vsub (u v : List K) : List K := List.zipWith (fun a b => a - b) u v

/-- Dot product of two vectors (`np.einsum` / row of a matrix product). -/
def dot (u v : List K) : K := (List.zipWith (fun a b => a * b) u v).sum

/-- Squared euclidean norm `np.einsum "ij,ij->i"` of a single row. -/
def sqnorm (u : List K) : K := dot u u

/-- Squared euclidean distance, the metric of `faiss.IndexFlatL2`. -/
def sqdist (u v : List K) : K := sqnorm (vsub u v)

/-- Minimum value of a list (`0` for the empty list, which never occurs in use). -/
def listMin : List K → K
  | [] => 0
  | [x] => x
  | x :: y :: ys => min x (listMin (y :: ys))

/-- Index of the first minimal element of a list; models `argmin` and the
index returned by a faiss exact 1-nearest-neighbour search (lowest index on ties). -/
def argmin : List K → ℕ
  | [] => 0
  | [_] => 0
  | x :: y :: ys => if x ≤ listMin (y :: ys) then 0 else argmin (y :: ys) + 1

/-- `index.search(q, 1)[1]`: index of the centroid of `cs` nearest to `q`. -/
def nearestIdx (cs : List (List K)) (q : List K) : ℕ :=
  argmin (cs.map (fun c => sqdist q c))

/-- `_KMeans._dists` (lines 46-50) for one candidate centre `y`: the expanded
squared-distance identity `XX - 2·X·yᵀ + yy`, clipped at zero. -/
def kmDists (X : List (List K)) (y : List K) : List K :=
  X.map (fun x => max 0 (sqnorm x - 2 * dot x y + sqnorm y))

end VectorOps

/-- The configuration attributes of a `_KMeans` object (lines 34-44).
`n_local_trials` is mutable state: `_init_centroids` overwrites it (line 64). -/
structure KMState where
  n_clusters : ℕ
  n_iter : ℕ
  n_local_trials : Option ℕ
  random_state : Option ℤ
deriving Repr

/-- Deterministic model of the draws a `np.random.default_rng(seed)` generator
produces inside `_init_centroids`: `integersDraw` is the result of the single
`rng.integers(n)` call (line 56), and `choiceDraw step size p` is the list of
candidate ids returned by the `step`-th call `rng.choice(n, size=size, p=p)`
(lines 67-69).  Sampling is with replacement, so duplicate ids may appear. -/
structure Tape (K : Type) where
  integersDraw : ℕ
  choiceDraw : ℕ → ℕ → List K → List ℕ

/-- The default seeding pool size `2 + int(np.log(k))` of line 64
(`int` truncation coincides with the floor since `log k ≥ 0` for `k ≥ 1`). -/
noncomputable def defaultTrials (k : ℕ) : ℕ := 2 + (⌊Real.log k⌋).toNat

section Seeding

variable {K : Type} [LinearOrderedField K]

/-- Body of the seeding loop of `_init_centroids` (lines 66-81): given the
current potentials `dists` and the drawn candidate ids, form each candidate's
pointwise-minimum potential vector, pick the candidate of least total
potential, and return its potential vector together with the chosen point id. -/
def seedStep (X : List (List K)) (dists : List K) (ids : List ℕ) : List K × ℕ :=
  let candDists := ids.map (fun cid => List.zipWith min (kmDists X (X.getD cid [])) dists)
  let inertias := candDists.map List.sum
  let b := argmin inertias
  (candDists.getD b dists, ids.getD b 0)

/-- `_KMeans._init_centroids` (lines 52-83), with the rng draws supplied by
`tape`.  Returns the chosen initial centroids together with the updated
`_KMeans` state: the source stores the computed trial count back into
`self.n_local_trials` (lines 63-64).  The weight vector handed to `rng.choice`
is `dists / inertia` where the tracked inertia equals the sum of the current
potentials. -/
noncomputable def initCentroids (tape : Tape K) (cfg : KMState) (X : List (List K)) :
    List (List K) × KMState :=
  let c0 := X.getD tape.integersDraw []
  let dists0 := kmDists X c0
  let trials := cfg.n_local_trials.getD (defaultTrials cfg.n_clusters)
  let step := fun (acc : List (List K) × List K) (i : ℕ) =>
    let ids := tape.choiceDraw i trials (acc.2.map (fun d => d / acc.2.sum))
    let r := seedStep X acc.2 ids
    (acc.1 ++ [X.getD r.2 []], r.1)
  let res := (List.range' 1 (cfg.n_clusters - 1)).foldl step ([c0], dists0)
  (res.1, { cfg with n_local_trials := some trials })

/-- Result attributes of `_KMeans.fit` (lines 106-109). -/
structure KMFitResult (K : Type) where
  cluster_centers_ : List (List K)
  labels_ : List ℕ

/-- `_KMeans.fit` (lines 85-109): seed with `initCentroids`, refine with the
external faiss `Clustering.train` (supplied as `train`, taking the data, the
initial centroids and the iteration count), then label every point with the
index of its nearest trained centroid (`index.search`).  Also returns the
possibly mutated `_KMeans` state. -/
noncomputable def kmeansFit (tape : Tape K)
    (train : List (List K) → List (List K) → ℕ → List (List K))
    (cfg : KMState) (X : List (List K)) : KMFitResult K × KMState :=
  let ic := initCentroids tape cfg X
  let centers := train X ic.1 cfg.n_iter
  (⟨centers, X.map (nearestIdx centers)⟩, ic.2)

end Seeding

section Affinity

/-- Raw directional bridge affinity `affinity[i][j]` (lines 234-244), written
the way the source computes row `i`: `segments` is the matrix of differences
`cluster_centers - cluster_centers[i]`, `dists` its vector of squared norms
with the `i`-th entry overwritten by `1`, and the row entry is the sum over
node `i`'s member residuals of the squared zero-clipped normalized projection. -/
def rawAffinity (centers : ℕ → List ℚ) (res : ℕ → List (List ℚ)) (i j : ℕ) : ℚ :=
  let segments := fun jj => vsub (centers jj) (centers i)
  let dists := Function.update (fun jj => sqnorm (segments jj)) i 1
  ((res i).map (fun r => (max 0 (dot r (segments j) / dists j)) ^ 2)).sum

/-- The specification's per-ordered-pair description of the same quantity:
`segment = centroid_j − centroid_i`, `dist = ‖segment‖²` with the self-pair
distance fixed to 1; each member residual of node i contributes its scalar
projection onto `segment` divided by `dist`, negative projections are clipped
to zero, and the squared clipped projections are summed. -/
def specRawAffinity (centers : ℕ → List ℚ) (res : ℕ → List (List ℚ)) (i j : ℕ) : ℚ :=
  let segment := vsub (centers j) (centers i)
  let dist : ℚ := if i = j then 1 else sqnorm segment
  ((res i).map (fun r => (max 0 (dot r segment / dist)) ^ 2)).sum

/-- Symmetrised affinity entry (line 246):
`sqrt((affinity + affinity.T) / (counts + counts.T))`, where `counts[i]` is
the number of member residuals of node `i`. -/
noncomputable def symAffinity (centers : ℕ → List ℚ) (res : ℕ → List (List ℚ))
    (i j : ℕ) : ℝ :=
  Real.sqrt (((rawAffinity centers res i j + rawAffinity centers res j i : ℚ) : ℝ) /
    (((res i).length + (res j).length : ℕ) : ℝ))

/-- Row-major flattening of the leading `n × n` block of a matrix, the order in
which numpy reductions (`max`, `np.quantile`) traverse a 2-d array. -/
def matFlatten {α : Type} (n : ℕ) (A : ℕ → ℕ → α) : List α :=
  (List.range n).flatMap (fun i => (List.range n).map (fun j => A i j))

/-- `affinity.max()` (line 247); the fold default `0` is never the result on
the nonempty matrices of the pipeline, whose entries are square roots `≥ 0`. -/
noncomputable def matMax (n : ℕ) (A : ℕ → ℕ → ℝ) : ℝ := (matFlatten n A).foldr max 0

/-- `np.sort` on real values. -/
noncomputable def sortR (l : List ℝ) : List ℝ := l.mergeSort (fun a b => a ≤ b)

/-- `np.quantile` with its default linear interpolation: virtual index
`h = q·(len−1)` into the sorted data, interpolating between the neighbouring
order statistics. -/
noncomputable def npQuantile (l : List ℝ) (q : ℝ) : ℝ :=
  let s := sortR l
  let h := q * ((l.length : ℝ) - 1)
  s.getD ⌊h⌋.toNat 0 + (h - ⌊h⌋) * (s.getD (⌊h⌋.toNat + 1) 0 - s.getD ⌊h⌋.toNat 0)

/-- The recentred matrix of line 247: subtract half the global maximum of the
symmetrised affinity matrix from every entry. -/
noncomputable def recenteredAffinity (n : ℕ) (centers : ℕ → List ℚ)
    (res : ℕ → List (List ℚ)) (i j : ℕ) : ℝ :=
  symAffinity centers res i j - 0.5 * matMax n (symAffinity centers res)

/-- `gamma = np.log(M) / (q90 - q10)` (line 251).  Lean division is total, so
this value is `0` when `q90 = q10`; the source instead divides by zero there
(`gamma = inf`, NaN entries downstream) and `fit` fails.  The definition is
therefore meaningful only on the non-degenerate path `q90 ≠ q10`;
`rescaledAffinityChecked` below carries the failure case explicitly. -/
noncomputable def gammaOf (M q10 q90 : ℝ) : ℝ := Real.log M / (q90 - q10)

/-- The elementwise contrast map `np.exp(gamma * a)` of line 252. -/
noncomputable def contrastScale (gamma x : ℝ) : ℝ := Real.exp (gamma * x)

/-- The 10th percentile `q10` the source reads off the recentred matrix
(line 249). -/
noncomputable def pipelineQ10 (n : ℕ) (centers : ℕ → List ℚ)
    (res : ℕ → List (List ℚ)) : ℝ :=
  npQuantile (matFlatten n (recenteredAffinity n centers res)) (1/10)

/-- The 90th percentile `q90` the source reads off the recentred matrix
(line 249). -/
noncomputable def pipelineQ90 (n : ℕ) (centers : ℕ → List ℚ)
    (res : ℕ → List (List ℚ)) : ℝ :=
  npQuantile (matFlatten n (recenteredAffinity n centers res)) (9/10)

/-- Lines 249-252: the rescaled affinity matrix on the non-degenerate path,
with `q10`/`q90` the 10th and 90th percentiles of the recentred matrix. -/
noncomputable def rescaledAffinity (n : ℕ) (M : ℝ) (centers : ℕ → List ℚ)
    (res : ℕ → List (List ℚ)) (i j : ℕ) : ℝ :=
  contrastScale (gammaOf M (pipelineQ10 n centers res) (pipelineQ90 n centers res))
    (recenteredAffinity n centers res i j)

/-- Lines 249-252 with the program's failure path explicit: when `q90 = q10`
line 251 divides by zero, `gamma` is infinite, line 252 turns the zero entries
of the recentred matrix into NaN (`inf · 0`), and the downstream
eigendecomposition rejects the non-finite matrix, so `fit` raises and stores
nothing.  Over exact arithmetic this error path is modelled as `none`;
otherwise the rescaled matrix of `rescaledAffinity` is produced. -/
noncomputable def rescaledAffinityChecked (n : ℕ) (M : ℝ) (centers : ℕ → List ℚ)
    (res : ℕ → List (List ℚ)) : Option (ℕ → ℕ → ℝ) :=
  if pipelineQ90 n centers res = pipelineQ10 n centers res then none
  else some (fun i j => rescaledAffinity n M centers res i j)

end Affinity

/-- `scipy.sparse.csgraph.laplacian(A, normed=True)` on a dense matrix: the
diagonal of `A` is zeroed, degrees are the column sums of the off-diagonal
part, and the result is `I − D^(−1/2) A D^(−1/2)` with the diagonal set to 1
on rows of nonzero degree and 0 otherwise. -/
noncomputable def normedLaplacian (n : ℕ) (A : ℕ → ℕ → ℝ) : ℕ → ℕ → ℝ :=
  let A0 : ℕ → ℕ → ℝ := fun i j => if i = j then 0 else A i j
  let w : ℕ → ℝ := fun j => Real.sqrt (∑ i ∈ Finset.range n, A0 i j)
  fun i j => if i = j then (if w i = 0 then 0 else 1) else -(A0 i j) / (w i * w j)

/-- The deterministic external collaborators of the pipeline: the seeded numpy
generators consumed by the two `_KMeans` invocations (on rational raw data and
on real spectral embeddings), the two faiss training routines, and
`np.linalg.eigh`, which for an `n × n` symmetric matrix returns the ascending
eigenvalues and the eigenvector matrix (columns indexed second). -/
structure Backend where
  tapeQ : Option ℤ → Tape ℚ
  tapeR : Option ℤ → Tape ℝ
  trainQ : List (List ℚ) → List (List ℚ) → ℕ → List (List ℚ)
  trainR : List (List ℝ) → List (List ℝ) → ℕ → List (List ℝ)
  eigh : ℕ → (ℕ → ℕ → ℝ) → (ℕ → ℝ) × (ℕ → ℕ → ℝ)

/-- Result attributes of `_SpectralClustering.fit` (lines 151-157). -/
structure SpectralResult where
  labels_ : List ℕ
  eigvals_ : List ℝ

/-- `_SpectralClustering.fit` (lines 141-157): eigendecompose the normalized
Laplacian of the affinity matrix, keep the first `k` eigenvector columns,
L2-normalize each row, and cluster the rows with a fresh `_KMeans(k)` seeded by
`random_state` (its remaining configuration left at the defaults
`n_iter = 20`, `n_local_trials = None`). -/
noncomputable def spectralFit (B : Backend) (k : ℕ) (seed : Option ℤ) (n : ℕ)
    (affinity : ℕ → ℕ → ℝ) : SpectralResult :=
  let ev := B.eigh n (normedLaplacian n affinity)
  let rows := (List.range n).map (fun i => ((List.range n).take k).map (fun c => ev.2 i c))
  let normRows := rows.map (fun r => r.map (fun x => x / Real.sqrt (sqnorm r)))
  let km := kmeansFit (B.tapeR seed) B.trainR ⟨k, 20, none, seed⟩ normRows
  ⟨km.1.labels_, (List.range n).map ev.1⟩

/-- The attributes of a `SpectralBridges` object: the six constructor
configuration fields (lines 186-200) and the two fitted-state fields, `None`
until `fit` stores them (lines 201-202, 259-263). -/
structure SBState where
  n_clusters : ℕ
  n_nodes : ℕ
  M : ℝ
  n_iter : ℕ
  n_local_trials : Option ℕ
  random_state : Option ℤ
  cluster_centers_ : Option (List (List (List ℚ)))
  eigvals_ : Option (List ℝ)

/-- `SpectralBridges.__init__` (lines 186-202). -/
def sbInit (n_clusters n_nodes : ℕ) (M : ℝ) (n_iter : ℕ) (n_local_trials : Option ℕ)
    (random_state : Option ℤ) : SBState :=
  ⟨n_clusters, n_nodes, M, n_iter, n_local_trials, random_state, none, none⟩

/-- The grouping of lines 260-263: `cluster_centers_[labels == i]` for each
final cluster index `i < k`, in label order. -/
def clusterGroups {α : Type} (centers : List α) (labels : List ℕ) (k : ℕ) :
    List (List α) :=
  (List.range k).map (fun i => ((centers.zip labels).filter (fun p => p.2 == i)).map Prod.fst)

/-- `SpectralBridges.fit` (lines 204-263): run `_KMeans(n_nodes)` on the raw
data, form the per-node member residuals `X[labels == i] - centers[i]`, build
the rescaled bridge affinity matrix, spectrally recluster the nodes, and store
the eigenvalues and the node centroids grouped by final label. -/
noncomputable def sbFit (B : Backend) (s : SBState) (X : List (List ℚ)) : SBState :=
  let km := (kmeansFit (B.tapeQ s.random_state) B.trainQ
    ⟨s.n_nodes, s.n_iter, s.n_local_trials, s.random_state⟩ X).1
  let centers : ℕ → List ℚ := fun i => km.cluster_centers_.getD i []
  let res : ℕ → List (List ℚ) := fun i =>
    ((X.zip km.labels_).filter (fun p => p.2 == i)).map (fun p => vsub p.1 (centers i))
  let sc := spectralFit B s.n_clusters s.random_state s.n_nodes
    (rescaledAffinity s.n_nodes s.M centers res)
  { s with cluster_centers_ := some (clusterGroups km.cluster_centers_ sc.labels_ s.n_clusters),
           eigvals_ := some sc.eigvals_ }

/-- The unnamed Python exceptions the source can actually raise, next to the
`NotFittedError` the specification names (which the source never defines):
`typeError` models the `TypeError` numpy raises when the `None` sentinel of an
unfitted model is used as an array, `indexError` models an out-of-range
subscript. -/
inductive PyErr where
  | typeError
  | indexError
  | notFittedError
deriving DecidableEq, Repr

/-- `np.cumsum` on the list of group sizes (lines 279-281). -/
def cumsum : List ℕ → List ℕ
  | [] => []
  | x :: xs => x :: (cumsum xs).map (fun c => x + c)

/-- `np.searchsorted(a, v, side="right")` on a sorted array: the number of
entries `≤ v`, i.e. the rightmost insertion index. -/
def searchsortedRight (a : List ℕ) (v : ℕ) : ℕ := a.countP (fun c => decide (c ≤ v))

section Predict

variable {K : Type} [LinearOrderedField K]

/-- The label computation of `SpectralBridges.predict` on a fitted model
(lines 278-289): stack the groups, find each query's nearest node centroid in
the stacked order, and map the flat winner index back through the cumulative
group sizes. -/
def predictLabels (groups : List (List (List K))) (x : List (List K)) : List ℕ :=
  let flat := groups.flatten
  let cutoffs := cumsum (groups.map List.length)
  x.map (fun q => searchsortedRight cutoffs (nearestIdx flat q))

/-- The index of the group a flat position `w` falls in, when the groups have
the given sizes: the unique `g` with `sizes[0]+⋯+sizes[g-1] ≤ w` strictly below
the next cumulative sum. -/
def ownerOf : List ℕ → ℕ → ℕ
  | [], _ => 0
  | s :: ss, w => if w < s then 0 else ownerOf ss (w - s) + 1

end Predict

/-- `SpectralBridges.predict` (lines 265-289) including the unfitted failure
mode: before `fit`, `cluster_centers_` is `None` and `np.vstack(None)` raises
an (unnamed) `TypeError`. -/
def sbPredict (s : SBState) (x : List (List ℚ)) : Except PyErr (List ℕ) :=
  match s.cluster_centers_ with
  | none => .error .typeError
  | some groups => .ok (predictLabels groups x)

/-- Python sequence subscription `l[i]`: negative indices address from the
end, out-of-range access raises (modelled as `none`). -/
def pyGet (l : List ℝ) (i : ℤ) : Option ℝ :=
  if 0 ≤ i then l.get? i.toNat
  else if (-i).toNat ≤ l.length then l.get? (l.length - (-i).toNat) else none

/-- The expression `(eigvals_[k] - eigvals_[k-1]) / eigvals_[k]` of lines
299-301 under Python indexing, `none` when a subscript is out of range. -/
noncomputable def eigengapExpr (k : ℕ) (e : List ℝ) : Option ℝ :=
  (pyGet e k).bind fun a => (pyGet e ((k : ℤ) - 1)).map fun b => (a - b) / a

/-- `SpectralBridges.normalized_eigengap` (lines 291-301) including its
failure modes: before `fit`, subscripting the `None` sentinel raises an
(unnamed) `TypeError`; on a fitted model an out-of-range subscript raises
`IndexError`. -/
noncomputable def sbEigengap (s : SBState) : Except PyErr ℝ :=
  match s.eigvals_ with
  | none => .error .typeError
  | some e =>
    match eigengapExpr s.n_clusters e with
    | some v => .ok v
    | none => .error .indexError

/-! ### Helper lemmas about the nearest-neighbour and offset primitives -/

section MinLemmas

variable {K : Type} [LinearOrderedField K]

theorem listMin_le_of_mem {l : List K} {a : K} (h : a ∈ l) : listMin l ≤ a := by
  induction l with
  | nil => cases h
  | cons x xs ih =>
    cases xs with
    | nil =>
      rcases List.mem_singleton.mp h with rfl
      exact le_of_eq rfl
    | cons y ys =>
      rcases List.mem_cons.mp h with rfl | hmem
      · exact min_le_left _ _
      · exact le_trans (min_le_right _ _) (ih hmem)

theorem argmin_lt_length (l : List K) (h : l ≠ []) : argmin l < l.length := by
  induction l with
  | nil => exact absurd rfl h
  | cons x xs ih =>
    cases xs with
    | nil => simp [argmin]
    | cons y ys =>
      rw [argmin]
      split
      · simp
      · have := ih (by simp)
        simpa [Nat.succ_lt_succ_iff] using this

theorem getD_argmin (l : List K) (h : l ≠ []) : l.getD (argmin l) 0 = listMin l := by
  induction l with
  | nil => exact absurd rfl h
  | cons x xs ih =>
    cases xs with
    | nil => simp [argmin, listMin]
    | cons y ys =>
      rw [argmin, listMin]
      split
      · rename_i hle
        simpa using (min_eq_left hle).symm
      · rename_i hlt
        rw [List.getD_cons_succ, ih (by simp)]
        exact (min_eq_right (le_of_lt (lt_of_not_le hlt))).symm

theorem getD_map_of_lt {α β : Type} (l : List α) (f : α → β) (i : ℕ) (h : i < l.length)
    (d1 : β) (d2 : α) : (l.map f).getD i d1 = f (l.getD i d2) := by
  rw [List.getD_eq_getElem _ _ (by simpa using h), List.getElem_map, List.getD_eq_getElem _ _ h]

end MinLemmas

theorem cumsum_length (l : List ℕ) : (cumsum l).length = l.length := by
  induction l with
  | nil => rfl
  | cons x xs ih => simp [cumsum, ih]

theorem ownerOf_lt_length (l : List ℕ) (w : ℕ) (h : w < l.sum) : ownerOf l w < l.length := by
  induction l generalizing w with
  | nil => simp at h
  | cons s ss ih =>
    rw [ownerOf]
    split
    · simp
    · rename_i hns
      have : w - s < ss.sum := by
        simp only [List.sum_cons] at h
        omega
      simpa [Nat.succ_lt_succ_iff] using ih (w - s) this

theorem searchsorted_cumsum_eq_ownerOf (l : List ℕ) (w : ℕ) (h : w < l.sum) :
    searchsortedRight (cumsum l) w = ownerOf l w := by
  induction l generalizing w with
  | nil => simp at h
  | cons s ss ih =>
    rw [searchsortedRight, cumsum, ownerOf, List.countP_cons]
    simp only [decide_eq_true_eq]
    by_cases hws : w < s
    · rw [if_neg (by omega : ¬ s ≤ w), if_pos hws, Nat.add_zero, List.countP_eq_zero.mpr]
      intro c hc
      rcases List.mem_map.mp hc with ⟨c0, _, rfl⟩
      simp only [decide_eq_true_eq]
      omega
    · rw [if_pos (by omega : s ≤ w), if_neg hws, List.countP_map]
      have hcong : ((fun c => decide (c ≤ w)) ∘ (fun c => s + c)) = fun c => decide (c ≤ w - s) := by
        funext c
        simp only [Function.comp_apply, decide_eq_decide]
        omega
      have hsum : w - s < ss.sum := by
        simp only [List.sum_cons] at h
        omega
      have ihr := ih (w - s) hsum
      rw [searchsortedRight] at ihr
      rw [hcong, ihr]

theorem flatten_getD_mem_group {α : Type} (groups : List (List α)) (w : ℕ) (d : α)
    (h : w < (groups.map List.length).sum) :
    groups.flatten.getD w d ∈ groups.getD (ownerOf (groups.map List.length) w) [] := by
  induction groups generalizing w with
  | nil => simp at h
  | cons g gs ih =>
    simp only [List.map_cons, List.flatten_cons, ownerOf]
    split
    · rename_i hwg
      rw [List.getD_append _ _ _ _ hwg, List.getD_cons_zero]
      rw [List.getD_eq_getElem _ _ hwg]
      exact List.getElem_mem hwg
    · rename_i hwg
      rw [List.getD_append_right _ _ _ _ (by omega), List.getD_cons_succ]
      apply ih
      simp only [List.map_cons, List.sum_cons] at h
      omega

/-- C2: for a fitted model (nonempty stacked centroid list) and any queries,
`predict` returns one integer label per query, every label lies in
`[0, n_clusters)`, and each query's label is the cumulative-offset
(`searchsorted` over the cumulative group sizes) owner index of the stacked
node centroid nearest to the query in squared euclidean (hence euclidean)
distance. -/
theorem C2_predict_nearest_owner {K : Type} [LinearOrderedField K]
    (groups : List (List (List K))) (x : List (List K)) (q : List K)
    (hne : groups.flatten ≠ []) :
    (predictLabels groups x).length = x.length ∧
    (∀ lb ∈ predictLabels groups x, lb < groups.length) ∧
    searchsortedRight (cumsum (groups.map List.length)) (nearestIdx groups.flatten q) =
      ownerOf (groups.map List.length) (nearestIdx groups.flatten q) ∧
    groups.flatten.getD (nearestIdx groups.flatten q) [] ∈
      groups.getD
        (searchsortedRight (cumsum (groups.map List.length)) (nearestIdx groups.flatten q)) [] ∧
    ∀ c ∈ groups.flatten,
      sqdist q (groups.flatten.getD (nearestIdx groups.flatten q) []) ≤ sqdist q c := by
  have hwlt : ∀ p : List K, nearestIdx groups.flatten p < (groups.map List.length).sum := by
    intro p
    have h1 : (groups.flatten.map (fun c => sqdist p c)) ≠ [] := by
      simpa using hne
    have h2 := argmin_lt_length _ h1
    rw [List.length_map, List.length_flatten] at h2
    exact h2
  refine ⟨by simp [predictLabels], ?_, ?_, ?_, ?_⟩
  · intro lb hlb
    rw [predictLabels, List.mem_map] at hlb
    rcases hlb with ⟨p, _, rfl⟩
    rw [searchsorted_cumsum_eq_ownerOf _ _ (hwlt p)]
    have := ownerOf_lt_length _ _ (hwlt p)
    rwa [List.length_map] at this
  · exact searchsorted_cumsum_eq_ownerOf _ _ (hwlt q)
  · rw [searchsorted_cumsum_eq_ownerOf _ _ (hwlt q)]
    exact flatten_getD_mem_group _ _ _ (hwlt q)
  · intro c hc
    have hwn : nearestIdx groups.flatten q < groups.flatten.length := by
      have := hwlt q
      rwa [← List.length_flatten] at this
    have hmapne : (groups.flatten.map (fun c => sqdist q c)) ≠ [] := by simpa using hne
    have hval : sqdist q (groups.flatten.getD (nearestIdx groups.flatten q) []) =
        listMin (groups.flatten.map (fun c => sqdist q c)) := by
      have hargmin : argmin (groups.flatten.map (fun c => sqdist q c)) <
          groups.flatten.length := by
        have := argmin_lt_length _ hmapne
        rwa [List.length_map] at this
      rw [← getD_argmin _ hmapne, nearestIdx]
      exact (getD_map_of_lt _ _ _ hargmin ((0 : K)) ([] : List K)).symm
    rw [hval]
    exact listMin_le_of_mem (List.mem_map.mpr ⟨c, hc, rfl⟩)

/-- Witness for `C2_predict_nearest_owner` at groups `[[[0],[2]],[[10]]]` and
query `[9]`: the nearest node centroid is `[10]` at flat index 2, owned by
final cluster 1. -/
theorem C2_predict_nearest_owner_witness :
    ([[[(0:ℚ)],[2]],[[10]]] : List (List (List ℚ))).flatten ≠ [] ∧
    ((predictLabels [[[(0:ℚ)],[2]],[[10]]] [[9]]).length = [[(9:ℚ)]].length ∧
     (∀ lb ∈ predictLabels [[[(0:ℚ)],[2]],[[10]]] [[9]],
        lb < ([[[(0:ℚ)],[2]],[[10]]] : List (List (List ℚ))).length) ∧
     searchsortedRight (cumsum (([[[(0:ℚ)],[2]],[[10]]] : List (List (List ℚ))).map List.length))
        (nearestIdx ([[[(0:ℚ)],[2]],[[10]]] : List (List (List ℚ))).flatten [9]) =
       ownerOf (([[[(0:ℚ)],[2]],[[10]]] : List (List (List ℚ))).map List.length)
        (nearestIdx ([[[(0:ℚ)],[2]],[[10]]] : List (List (List ℚ))).flatten [9]) ∧
     ([[[(0:ℚ)],[2]],[[10]]] : List (List (List ℚ))).flatten.getD
        (nearestIdx ([[[(0:ℚ)],[2]],[[10]]] : List (List (List ℚ))).flatten [9]) [] ∈
       ([[[(0:ℚ)],[2]],[[10]]] : List (List (List ℚ))).getD
        (searchsortedRight (cumsum (([[[(0:ℚ)],[2]],[[10]]] : List (List (List ℚ))).map List.length))
          (nearestIdx ([[[(0:ℚ)],[2]],[[10]]] : List (List (List ℚ))).flatten [9])) [] ∧
     ∀ c ∈ ([[[(0:ℚ)],[2]],[[10]]] : List (List (List ℚ))).flatten,
       sqdist [9] (([[[(0:ℚ)],[2]],[[10]]] : List (List (List ℚ))).flatten.getD
          (nearestIdx ([[[(0:ℚ)],[2]],[[10]]] : List (List (List ℚ))).flatten [9]) []) ≤
         sqdist [9] c) :=
  ⟨by simp, C2_predict_nearest_owner [[[(0:ℚ)],[2]],[[10]]] [[9]] [9] (by simp)⟩

/-! ### Helper lemmas about the grouping of node centroids by final label -/

theorem filter_or_perm {α : Type} (p q : α → Bool) (l : List α)
    (hpq : ∀ a ∈ l, ¬(p a = true ∧ q a = true)) :
    (l.filter (fun a => p a || q a)).Perm (l.filter p ++ l.filter q) := by
  induction l with
  | nil => simp
  | cons a l ih =>
    have ih2 := ih (fun b hb => hpq b (List.mem_cons_of_mem a hb))
    have hpa := hpq a (List.mem_cons_self a l)
    by_cases hp : p a = true
    · have hq : q a = false := by
        cases hqv : q a
        · rfl
        · exact absurd ⟨hp, hqv⟩ hpa
      simp only [List.filter_cons, hp, hq, Bool.or_false, Bool.true_or, if_true]
      exact ih2.cons a
    · have hp2 : p a = false := by
        cases hpv : p a
        · rfl
        · exact absurd hpv hp
      by_cases hq : q a = true
      · simp only [List.filter_cons, hp2, hq, Bool.false_or, if_true, if_false]
        exact (ih2.cons a).trans List.perm_middle.symm
      · have hq2 : q a = false := by
          cases hqv : q a
          · rfl
          · exact absurd hqv hq
        simp only [List.filter_cons, hp2, hq2, Bool.false_or, if_false]
        exact ih2

theorem decide_lt_succ_eq (a k : ℕ) :
    decide (a < k + 1) = (decide (a < k) || decide (a = k)) := by
  by_cases h1 : a < k
  · simp [h1, Nat.lt_succ_of_lt h1]
  · by_cases h2 : a = k
    · simp [h2]
    · have h3 : ¬ a < k + 1 := by omega
      simp [h1, h2, h3]

theorem clusterGroups_flatten_perm_aux {α : Type} (pairs : List (α × ℕ)) (k : ℕ) :
    ((List.range k).map
        (fun i => (pairs.filter (fun p => p.2 == i)).map Prod.fst)).flatten.Perm
      ((pairs.filter (fun p => decide (p.2 < k))).map Prod.fst) := by
  induction k with
  | zero => simp
  | succ k ih =>
    rw [List.range_succ, List.map_append, List.flatten_append]
    have hsplit : (pairs.filter (fun p => decide (p.2 < k + 1))).Perm
        (pairs.filter (fun p => decide (p.2 < k)) ++ pairs.filter (fun p => p.2 == k)) := by
      have hcong : (fun (p : α × ℕ) => decide (p.2 < k + 1)) =
          fun p => (decide (p.2 < k) || (p.2 == k)) := by
        funext p
        rw [decide_lt_succ_eq]
        cases hv : (p.2 == k)
        · simp only [Bool.or_false]
          have : ¬ p.2 = k := by simpa using hv
          simp [this]
        · simp only [Bool.or_true]
          have : p.2 = k := by simpa using hv
          simp [this]
      rw [hcong]
      refine filter_or_perm _ _ _ ?_
      intro p _ hcontra
      rcases hcontra with ⟨h1, h2⟩
      simp only [decide_eq_true_eq, beq_iff_eq] at h1 h2
      omega
    refine .trans ?_ ((hsplit.map Prod.fst).symm)
    rw [List.map_append]
    apply List.Perm.append ih
    simp

/-- The grouping of lines 260-263 partitions the node centroids: given one
label per centroid, each below `k`, the stored groups are `k` many and their
concatenation is a permutation of the centroid list, so every centroid occurs
in exactly one group position, with no duplicates and no omissions.  (Nothing
forces a group to be non-empty: a label value that no node carries yields an
empty group.) -/
theorem clusterGroups_partition {α : Type} (centers : List α) (labels : List ℕ) (k : ℕ)
    (hlen : labels.length = centers.length) (hk : ∀ l ∈ labels, l < k) :
    (clusterGroups centers labels k).length = k ∧
    (clusterGroups centers labels k).flatten.Perm centers := by
  constructor
  · simp [clusterGroups]
  · have haux := clusterGroups_flatten_perm_aux (centers.zip labels) k
    rw [clusterGroups]
    refine haux.trans ?_
    rw [List.filter_eq_self.mpr, List.map_fst_zip _ _ (le_of_eq hlen.symm)]
    intro p hp
    simp only [decide_eq_true_eq]
    exact hk p.2 (List.of_mem_zip hp).2

/-- A fixed arbitrary backend, used only to instantiate theorems that hold
for every backend at a closed point (never to exhibit a program behaviour):
its trainers return the data points themselves — what k-means produces when
`k` equals the number of points — and its `eigh` returns zero eigenvalues
with the identity eigenvector matrix, the true decomposition of a zero
matrix (e.g. the 1×1 normalized Laplacian of a single node). -/
def trivBackend : Backend where
  tapeQ := fun _ => ⟨0, fun _ _ _ => []⟩
  tapeR := fun _ => ⟨0, fun _ _ _ => []⟩
  trainQ := fun X _ _ => X
  trainR := fun X _ _ => X
  eigh := fun _ _ => (fun _ => 0, fun i j => if i = j then 1 else 0)

/-! ### The bridge affinity formula -/

theorem rawAffinity_eq_spec (centers : ℕ → List ℚ) (res : ℕ → List (List ℚ)) (i j : ℕ) :
    rawAffinity centers res i j = specRawAffinity centers res i j := by
  unfold rawAffinity specRawAffinity
  by_cases h : i = j
  · subst h
    simp [Function.update_apply]
  · have h2 : ¬ j = i := fun hji => h hji.symm
    simp only [Function.update_apply, if_neg h, if_neg h2]

/-- C3: the pre-rescale bridge affinity is computed exactly as specified: with
`segment = centroid_j − centroid_i` and `dist = ‖segment‖²` (fixed to 1 when
`i = j`), each member residual of node `i` contributes its scalar projection
onto `segment` divided by `dist`, negative projections are clipped to zero,
the squared clipped projections are summed into `raw[i][j]`, and the
symmetrized entry is `sqrt((raw[i][j] + raw[j][i]) / (count_i + count_j))`. -/
theorem C3_bridge_affinity_formula (centers : ℕ → List ℚ) (res : ℕ → List (List ℚ))
    (i j : ℕ) :
    symAffinity centers res i j =
      Real.sqrt (((specRawAffinity centers res i j + specRawAffinity centers res j i : ℚ) : ℝ) /
        (((res i).length + (res j).length : ℕ) : ℝ)) := by
  unfold symAffinity
  rw [rawAffinity_eq_spec, rawAffinity_eq_spec]

/-- C4: over exact real arithmetic, with `gamma = ln M / (q90 − q10)` the
elementwise rescale `x ↦ exp(gamma·x)` sends the two percentile values `q90`
and `q10` of the recentred matrix to values whose ratio is exactly the
configured contrast parameter `M`, whenever `q90 ≠ q10` and `M > 0`. -/
theorem C4_contrast_ratio (M q10 q90 : ℝ) (hM : 0 < M) (hq : q90 ≠ q10) :
    contrastScale (gammaOf M q10 q90) q90 / contrastScale (gammaOf M q10 q90) q10 = M := by
  unfold contrastScale gammaOf
  rw [← Real.exp_sub, ← mul_sub, div_mul_cancel₀ _ (sub_ne_zero.mpr hq), Real.exp_log hM]

/-- Witness for `C4_contrast_ratio` at `M = 2`, `q10 = 0`, `q90 = 1`. -/
theorem C4_contrast_ratio_witness :
    (0:ℝ) < 2 ∧ (1:ℝ) ≠ 0 ∧
    contrastScale (gammaOf 2 0 1) 1 / contrastScale (gammaOf 2 0 1) 0 = 2 :=
  ⟨by norm_num, by norm_num, C4_contrast_ratio 2 0 1 (by norm_num) (by norm_num)⟩

/-! ### Symmetry and positivity of the rescaled affinity matrix -/

/-- The node centroids the first clustering stage produces on the raw input
`X = [[0], [10]]` with `n_nodes = 2`: k-means on two points with two clusters
returns the points themselves. -/
def cexCenters : ℕ → List ℚ := fun i => [[(0:ℚ)], [10]].getD i []

/-- The member residuals of that fit: each node owns exactly its own
centroid, so both residual sets are a single zero vector. -/
def cexRes : ℕ → List (List ℚ) := fun i => [[[(0:ℚ)]], [[(0:ℚ)]]].getD i []

theorem dot_zero_single (v : List ℚ) : dot [(0:ℚ)] v = 0 := by
  cases v <;> simp [dot]

theorem cex_raw_zero (i j : ℕ) : rawAffinity cexCenters cexRes i j = 0 := by
  have hres : cexRes i = [[(0:ℚ)]] ∨ cexRes i = [] := by
    match i with
    | 0 => exact Or.inl rfl
    | 1 => exact Or.inl rfl
    | n + 2 => exact Or.inr rfl
  rcases hres with h | h <;> simp [rawAffinity, h, dot_zero_single]

theorem cex_sym_zero (i j : ℕ) : symAffinity cexCenters cexRes i j = 0 := by
  simp [symAffinity, cex_raw_zero, Real.sqrt_zero]

theorem cex_recflat :
    matFlatten 2 (recenteredAffinity 2 cexCenters cexRes) = [0, 0, 0, 0] := by
  have hmax : matMax 2 (symAffinity cexCenters cexRes) = 0 := by
    rw [matMax, matFlatten, show List.range 2 = [0, 1] from rfl]
    simp [cex_sym_zero]
  have hrec : ∀ i j, recenteredAffinity 2 cexCenters cexRes i j = 0 := by
    intro i j
    rw [recenteredAffinity, cex_sym_zero, hmax]
    ring
  rw [matFlatten, show List.range 2 = [0, 1] from rfl]
  simp [hrec]

theorem sortR_perm (l : List ℝ) : (sortR l).Perm l := List.mergeSort_perm l _

theorem getD_zero_of_all_zero (l : List ℝ) (h : ∀ x ∈ l, x = 0) (i : ℕ) :
    l.getD i 0 = 0 := by
  rcases Nat.lt_or_ge i l.length with hi | hi
  · rw [List.getD_eq_getElem _ _ hi]
    exact h _ (List.getElem_mem hi)
  · exact List.getD_eq_default _ _ hi

theorem npQuantile_all_zero (l : List ℝ) (h : ∀ x ∈ l, x = 0) (q : ℝ) :
    npQuantile l q = 0 := by
  have hz : ∀ i : ℕ, ((sortR l)[i]?).getD 0 = 0 := by
    intro i
    have := getD_zero_of_all_zero (sortR l)
      (fun x hx => h x ((sortR_perm l).mem_iff.mp hx)) i
    simpa [List.getD_eq_getElem?_getD] using this
  simp [npQuantile, hz]

/-- C5 counterexample: at the reachable fit input `X = [[0], [10]]` with
`n_nodes = 2` every node is a singleton with a zero member residual, so the
symmetrized affinity matrix is identically zero and the 10th and 90th
percentiles of the recentred matrix coincide.  Line 251 then divides by zero:
the program computes an infinite `gamma`, line 252 produces NaN entries and
`fit` fails downstream — no rescaled matrix exists at all (modelled as
`none`), so its entries are not strictly positive symmetric values, refuting
the unconditional claim. -/
theorem C5_degenerate_counterexample :
    pipelineQ90 2 cexCenters cexRes = pipelineQ10 2 cexCenters cexRes ∧
    rescaledAffinityChecked 2 10000 cexCenters cexRes = none := by
  have h90 : pipelineQ90 2 cexCenters cexRes = 0 := by
    rw [pipelineQ90, cex_recflat]
    exact npQuantile_all_zero _ (fun x hx => by simpa using hx) _
  have h10 : pipelineQ10 2 cexCenters cexRes = 0 := by
    rw [pipelineQ10, cex_recflat]
    exact npQuantile_all_zero _ (fun x hx => by simpa using hx) _
  refine ⟨by rw [h90, h10], ?_⟩
  rw [rescaledAffinityChecked, if_pos (by rw [h90, h10])]

/-- C5 (amended): for every fit input the symmetrized affinity matrix is
symmetric before the contrast rescale; and whenever the percentile spread of
the recentred matrix is nonzero (`q90 ≠ q10`, the program's non-degenerate
path — otherwise the rescale divides by zero and `fit` fails, see
`C5_degenerate_counterexample`), the rescale is defined and the rescaled
matrix is again symmetric with every entry strictly positive. -/
theorem C5_affinity_symmetric_positive_amended (n : ℕ) (M : ℝ)
    (centers : ℕ → List ℚ) (res : ℕ → List (List ℚ))
    (hq : pipelineQ90 n centers res ≠ pipelineQ10 n centers res) (i j : ℕ) :
    symAffinity centers res i j = symAffinity centers res j i ∧
    rescaledAffinityChecked n M centers res =
      some (fun a b => rescaledAffinity n M centers res a b) ∧
    rescaledAffinity n M centers res i j = rescaledAffinity n M centers res j i ∧
    0 < rescaledAffinity n M centers res i j := by
  have hsym : symAffinity centers res i j = symAffinity centers res j i := by
    unfold symAffinity
    rw [add_comm (rawAffinity centers res i j) (rawAffinity centers res j i),
      add_comm ((res i).length) ((res j).length)]
  have hrec : recenteredAffinity n centers res i j =
      recenteredAffinity n centers res j i := by
    unfold recenteredAffinity
    rw [hsym]
  refine ⟨hsym, ?_, ?_, ?_⟩
  · rw [rescaledAffinityChecked, if_neg hq]
  · rw [rescaledAffinity, rescaledAffinity, hrec]
  · rw [rescaledAffinity, contrastScale]
    exact Real.exp_pos _

/-- A non-degenerate concrete instance for the amended C5: node centroids
`[0]` and `[2]` with one member residual each (`[1]` and `[-1]`). -/
def wCenters : ℕ → List ℚ := fun i => [[(0:ℚ)], [2]].getD i []

/-- The member residuals of the non-degenerate instance. -/
def wRes : ℕ → List (List ℚ) := fun i => [[[(1:ℚ)]], [[(-1:ℚ)]]].getD i []

theorem wraw00 : rawAffinity wCenters wRes 0 0 = 0 := by
  norm_num [rawAffinity, wCenters, wRes, dot, vsub, sqnorm, Function.update_apply]

theorem wraw01 : rawAffinity wCenters wRes 0 1 = 1/4 := by
  norm_num [rawAffinity, wCenters, wRes, dot, vsub, sqnorm, Function.update_apply]

theorem wraw10 : rawAffinity wCenters wRes 1 0 = 1/4 := by
  norm_num [rawAffinity, wCenters, wRes, dot, vsub, sqnorm, Function.update_apply]

theorem wraw11 : rawAffinity wCenters wRes 1 1 = 0 := by
  norm_num [rawAffinity, wCenters, wRes, dot, vsub, sqnorm, Function.update_apply]

theorem wsym00 : symAffinity wCenters wRes 0 0 = 0 := by
  simp [symAffinity, wraw00, Real.sqrt_zero]

theorem wsym11 : symAffinity wCenters wRes 1 1 = 0 := by
  simp [symAffinity, wraw11, Real.sqrt_zero]

theorem wsym01 : symAffinity wCenters wRes 0 1 = 1/2 := by
  rw [symAffinity, wraw01, wraw10]
  rw [show (((1:ℚ)/4 + 1/4 : ℚ) : ℝ) / (((wRes 0).length + (wRes 1).length : ℕ) : ℝ) =
    (1/2)^2 by norm_num [wRes]]
  exact Real.sqrt_sq (by norm_num)

theorem wsym10 : symAffinity wCenters wRes 1 0 = 1/2 := by
  rw [symAffinity, wraw01, wraw10]
  rw [show (((1:ℚ)/4 + 1/4 : ℚ) : ℝ) / (((wRes 1).length + (wRes 0).length : ℕ) : ℝ) =
    (1/2)^2 by norm_num [wRes]]
  exact Real.sqrt_sq (by norm_num)

theorem wmax : matMax 2 (symAffinity wCenters wRes) = 1/2 := by
  rw [matMax, matFlatten, show List.range 2 = [0, 1] from rfl]
  simp [wsym00, wsym01, wsym10, wsym11, max_def]

theorem wrecflat : matFlatten 2 (recenteredAffinity 2 wCenters wRes) =
    [-(1/4 : ℝ), 1/4, 1/4, -(1/4)] := by
  have hrec : ∀ i j, recenteredAffinity 2 wCenters wRes i j =
      symAffinity wCenters wRes i j - 1/4 := by
    intro i j
    rw [recenteredAffinity, wmax]
    norm_num
  rw [matFlatten, show List.range 2 = [0, 1] from rfl]
  simp [hrec, wsym00, wsym01, wsym10, wsym11]
  norm_num

theorem wsort : sortR [-(1/4 : ℝ), 1/4, 1/4, -(1/4)] = [-(1/4), -(1/4), 1/4, 1/4] := by
  have hperm : ([-(1/4 : ℝ), 1/4, 1/4, -(1/4)] : List ℝ).Perm
      [-(1/4), -(1/4), 1/4, 1/4] := by
    have h1 : ([(1:ℝ)/4, 1/4] ++ -(1/4 : ℝ) :: ([] : List ℝ)).Perm
        (-(1/4 : ℝ) :: ([(1:ℝ)/4, 1/4] ++ ([] : List ℝ))) := List.perm_middle
    simpa using h1.cons (-(1/4 : ℝ))
  have hs2 : List.Sorted (fun a b => a ≤ b) [-(1/4 : ℝ), -(1/4), 1/4, 1/4] := by
    norm_num [List.sorted_cons]
  have hs1 : List.Sorted (fun a b => a ≤ b) (sortR [-(1/4 : ℝ), 1/4, 1/4, -(1/4)]) := by
    unfold sortR
    exact List.sorted_mergeSort' _
  exact List.eq_of_perm_of_sorted ((sortR_perm _).trans hperm) hs1 hs2

theorem wq10 : pipelineQ10 2 wCenters wRes = -(1/4) := by
  rw [pipelineQ10, wrecflat]
  simp only [npQuantile, wsort]
  rw [show (([-(1/4 : ℝ), 1/4, 1/4, -(1/4)] : List ℝ).length : ℝ) - 1 = 3 by norm_num]
  rw [show (1:ℝ)/10 * 3 = 3/10 by norm_num]
  rw [show ⌊(3/10 : ℝ)⌋ = 0 by
    rw [Int.floor_eq_iff]
    constructor <;> norm_num]
  norm_num

theorem wq90 : pipelineQ90 2 wCenters wRes = 1/4 := by
  rw [pipelineQ90, wrecflat]
  simp only [npQuantile, wsort]
  rw [show (([-(1/4 : ℝ), 1/4, 1/4, -(1/4)] : List ℝ).length : ℝ) - 1 = 3 by norm_num]
  rw [show (9:ℝ)/10 * 3 = 27/10 by norm_num]
  rw [show ⌊(27/10 : ℝ)⌋ = 2 by
    rw [Int.floor_eq_iff]
    constructor <;> norm_num]
  rw [show Int.toNat 2 = 2 from rfl]
  norm_num [List.getElem_cons_succ, List.getElem_cons_zero]

theorem whq : pipelineQ90 2 wCenters wRes ≠ pipelineQ10 2 wCenters wRes := by
  rw [wq90, wq10]
  norm_num

/-- Witness for `C5_affinity_symmetric_positive_amended` at the concrete
non-degenerate instance, where `q10 = -1/4` and `q90 = 1/4`. -/
theorem C5_affinity_symmetric_positive_amended_witness :
    pipelineQ90 2 wCenters wRes ≠ pipelineQ10 2 wCenters wRes ∧
    (symAffinity wCenters wRes 0 1 = symAffinity wCenters wRes 1 0 ∧
     rescaledAffinityChecked 2 10000 wCenters wRes =
       some (fun a b => rescaledAffinity 2 10000 wCenters wRes a b) ∧
     rescaledAffinity 2 10000 wCenters wRes 0 1 =
       rescaledAffinity 2 10000 wCenters wRes 1 0 ∧
     0 < rescaledAffinity 2 10000 wCenters wRes 0 1) :=
  ⟨whq, C5_affinity_symmetric_positive_amended 2 10000 wCenters wRes whq 0 1⟩

/-! ### Eigengap, determinism, configuration mutation, unfitted failures -/

/-- C6: on a fitted model whose `n_clusters` indexes strictly inside the
stored ascending eigenvalue list, `normalized_eigengap` returns exactly
`(eigvals_[n_clusters] − eigvals_[n_clusters−1]) / eigvals_[n_clusters]`
(the boundary case `n_clusters = n_nodes` is the subject of C10). -/
theorem C6_eigengap_value (s : SBState) (e : List ℝ)
    (hfit : s.eigvals_ = some e) (h1 : 0 < s.n_clusters) (h2 : s.n_clusters < e.length) :
    sbEigengap s = .ok ((e.getD s.n_clusters 0 - e.getD (s.n_clusters - 1) 0) /
      e.getD s.n_clusters 0) := by
  have hk1 : s.n_clusters - 1 < e.length := by omega
  have hget : pyGet e s.n_clusters = some (e.getD s.n_clusters 0) := by
    rw [pyGet, if_pos (Int.natCast_nonneg _), Int.toNat_natCast]
    rw [List.getD_eq_getElem _ _ h2, List.get?_eq_getElem?, List.getElem?_eq_getElem h2]
  have hget1 : pyGet e ((s.n_clusters : ℤ) - 1) = some (e.getD (s.n_clusters - 1) 0) := by
    rw [pyGet, if_pos (by omega : (0:ℤ) ≤ (s.n_clusters : ℤ) - 1),
      show ((s.n_clusters : ℤ) - 1).toNat = s.n_clusters - 1 by omega]
    rw [List.getD_eq_getElem _ _ hk1, List.get?_eq_getElem?, List.getElem?_eq_getElem hk1]
  simp only [sbEigengap, hfit]
  simp only [eigengapExpr, hget, hget1]
  rfl

/-- Witness for `C6_eigengap_value` on a fitted state with eigenvalues
`[0, 2, 5]` and `n_clusters = 1`. -/
theorem C6_eigengap_value_witness :
    (⟨1, 3, 10000, 20, none, none, none, some [0, 2, 5]⟩ : SBState).eigvals_ =
      some [(0:ℝ), 2, 5] ∧
    0 < (⟨1, 3, 10000, 20, none, none, none, some [0, 2, 5]⟩ : SBState).n_clusters ∧
    (⟨1, 3, 10000, 20, none, none, none, some [0, 2, 5]⟩ : SBState).n_clusters <
      ([(0:ℝ), 2, 5]).length ∧
    sbEigengap (⟨1, 3, 10000, 20, none, none, none, some [0, 2, 5]⟩ : SBState) =
      .ok ((([(0:ℝ), 2, 5]).getD 1 0 - ([(0:ℝ), 2, 5]).getD 0 0) / ([(0:ℝ), 2, 5]).getD 1 0) :=
  ⟨rfl, by norm_num, by norm_num,
    C6_eigengap_value _ [(0:ℝ), 2, 5] rfl (by norm_num) (by norm_num)⟩

/-- C7: fitting is deterministic in the configuration and seed: for any fixed
deterministic external backend, two `fit` calls with identical input data and
identical configuration fields (the same single `random_state` seed drives
both the initial draw and the candidate sampling, via `B.tapeQ`) produce
identical `cluster_centers_` and identical `eigvals_`, regardless of any
previously stored fitted state. -/
theorem C7_fit_deterministic (B : Backend) (nc nn : ℕ) (M : ℝ) (ni : ℕ)
    (nlt : Option ℕ) (rs : Option ℤ) (cc1 cc2 : Option (List (List (List ℚ))))
    (ev1 ev2 : Option (List ℝ)) (X : List (List ℚ)) :
    (sbFit B ⟨nc, nn, M, ni, nlt, rs, cc1, ev1⟩ X).cluster_centers_ =
      (sbFit B ⟨nc, nn, M, ni, nlt, rs, cc2, ev2⟩ X).cluster_centers_ ∧
    (sbFit B ⟨nc, nn, M, ni, nlt, rs, cc1, ev1⟩ X).eigvals_ =
      (sbFit B ⟨nc, nn, M, ni, nlt, rs, cc2, ev2⟩ X).eigvals_ :=
  ⟨rfl, rfl⟩

theorem floor_log_five : ⌊Real.log 5⌋ = 1 := by
  have h5 : (5:ℝ) < Real.exp 2 := by
    have h2 : Real.exp 2 = Real.exp 1 * Real.exp 1 := by
      rw [← Real.exp_add]
      norm_num
    nlinarith [Real.exp_one_gt_d9]
  rw [Int.floor_eq_iff]
  constructor
  · push_cast
    rw [Real.le_log_iff_exp_le (by norm_num)]
    have := Real.exp_one_lt_d9
    linarith
  · push_cast
    rw [show ((1:ℝ) + 1) = 2 by norm_num, Real.log_lt_iff_lt_exp (by norm_num)]
    exact h5

/-- A trivial tape of generator draws for closed-instance runs. -/
def constTapeQ : Tape ℚ := ⟨0, fun _ _ _ => []⟩

/-- C8 evaluation at the failing input: a `_KMeans` configured with
`n_clusters = 5` and `n_local_trials = None` has, after `_init_centroids`
runs, its `n_local_trials` configuration field overwritten with
`2 + int(ln 5) = 3` — the field does not stay `None`, contradicting the
claim that `fit` leaves the configuration fields unchanged. -/
theorem C8_trials_field_mutated :
    (initCentroids constTapeQ ⟨5, 20, none, none⟩ [[(0:ℚ)]]).2.n_local_trials = some 3 ∧
    (⟨5, 20, none, none⟩ : KMState).n_local_trials = none := by
  refine ⟨?_, rfl⟩
  show some (Option.getD none (defaultTrials 5)) = some 3
  rw [Option.getD]
  unfold defaultTrials
  rw [show ((5:ℕ):ℝ) = 5 by norm_num, floor_log_five]
  rfl

/-- C9 counterexample: calling `predict` or `normalized_eigengap` on a freshly
constructed (never fitted) model does not raise the named `NotFittedError` the
claim demands — the source defines no such error; the `None` sentinels produce
an unnamed generic `TypeError` inside numpy instead. -/
theorem C9_notfitted_counterexample :
    sbPredict (sbInit 2 3 10000 20 none none) [[(0:ℚ)]] ≠
      Except.error PyErr.notFittedError ∧
    sbEigengap (sbInit 2 3 10000 20 none none) ≠ Except.error PyErr.notFittedError := by
  constructor <;> simp [sbPredict, sbEigengap, sbInit]

/-- C9 (amended): calling `predict` or `normalized_eigengap` before `fit`
does fail fast — no partial or best-effort result is returned — but with the
generic `TypeError` arising from the `None` sentinel, not with a specific
named `NotFittedError`. -/
theorem C9_unfitted_fails (s : SBState) (x : List (List ℚ))
    (h1 : s.cluster_centers_ = none) (h2 : s.eigvals_ = none) :
    sbPredict s x = .error .typeError ∧ sbEigengap s = .error .typeError := by
  constructor
  · unfold sbPredict
    rw [h1]
  · unfold sbEigengap
    rw [h2]

/-- Witness for `C9_unfitted_fails` on a freshly constructed model. -/
theorem C9_unfitted_fails_witness :
    (sbInit 2 3 10000 20 none none).cluster_centers_ = none ∧
    (sbInit 2 3 10000 20 none none).eigvals_ = none ∧
    (sbPredict (sbInit 2 3 10000 20 none none) [[(0:ℚ)]] = .error .typeError ∧
     sbEigengap (sbInit 2 3 10000 20 none none) = .error .typeError) :=
  ⟨rfl, rfl, C9_unfitted_fails _ [[(0:ℚ)]] rfl rfl⟩

/-- C10: after any successful `fit` with `n_clusters = n_nodes`, the stored
eigenvalue list has exactly `n_nodes` entries, so `normalized_eigengap` reads
`eigvals_[n_clusters]` one position past the end and fails with an
`IndexError` instead of returning a scalar, even though `fit` succeeded. -/
theorem C10_eigengap_degenerate_fails (B : Backend) (s : SBState) (X : List (List ℚ))
    (h : s.n_clusters = s.n_nodes) :
    sbEigengap (sbFit B s X) = .error .indexError := by
  obtain ⟨e, he, hlen⟩ : ∃ e, (sbFit B s X).eigvals_ = some e ∧ e.length = s.n_nodes := by
    refine ⟨_, rfl, ?_⟩
    simp [sbFit, spectralFit]
  have hk : (sbFit B s X).n_clusters = s.n_clusters := rfl
  have hnone : pyGet e (s.n_clusters) = none := by
    rw [pyGet, if_pos (Int.natCast_nonneg _), Int.toNat_natCast]
    exact List.get?_eq_none.mpr (by omega)
  simp only [sbEigengap, he, hk]
  simp only [eigengapExpr, hnone, Option.none_bind]

/-- Witness for `C10_eigengap_degenerate_fails` at `n_clusters = n_nodes = 1`. -/
theorem C10_eigengap_degenerate_fails_witness :
    (sbInit 1 1 10000 20 none none).n_clusters = (sbInit 1 1 10000 20 none none).n_nodes ∧
    sbEigengap (sbFit trivBackend (sbInit 1 1 10000 20 none none) [[(0:ℚ)]]) =
      .error .indexError :=
  ⟨rfl, C10_eigengap_degenerate_fails trivBackend (sbInit 1 1 10000 20 none none) [[(0:ℚ)]] rfl⟩
